import Mathlib

/-!
Verification of the pwf photo-workflow scripts.

This file gives a shallow embedding, in Lean 4, of the parts of the pwf
repository (bin/common.py, bin/pwf_check.py, bin/pwf_protect.py,
bin/pwf_link.py) that the specification claims talk about, and proves or
refutes each claim against that embedding.

Modelling conventions:
* Filesystem paths are lists of segment strings (Python `Path.parts`);
  where the source manipulates the path *string* (`str(path)`,
  `str.replace`), we join the segments with "/" exactly as `str()` of a
  relative POSIX path does.
* Python `str.replace` (replace every non-overlapping occurrence, left to
  right) is re-implemented on `List Char` as `strReplace` (fuel-based so
  the kernel can evaluate it); `x in s` is `containsSub`.
* MD5 is treated as a parameter `md5 : List Nat → α`: every theorem either
  holds for all hash functions, or (for counterexamples) only uses the fact
  that a function applied to equal byte lists yields equal digests.
* File contents are byte lists (`List Nat`); `f.read(8000)` is
  `List.take 8000`.
* `\d` and `\w` of the Python regexes are modelled over the characters the
  repository actually uses: ASCII digits, and alphanumerics plus the fixed
  accented letters and `~._-` listed in `common.legal_characters`.
-/

deriving instance DecidableEq for Except

namespace Pwf

/-! ## String utilities (Python `str` operations on `List Char`) -/

/-- Boolean test that `pat` is a leading piece of `s` (`str.startswith`). -/
def isPrefixB : List Char → List Char → Bool
  | [], _ => true
  | _ :: _, [] => false
  | a :: as, b :: bs => a = b && isPrefixB as bs

/-- Python's `pat in s` substring test. -/
def containsSub (pat : List Char) : List Char → Bool
  | [] => isPrefixB pat []
  | c :: cs => isPrefixB pat (c :: cs) || containsSub pat cs

/-- One fuel-indexed step of Python `str.replace`: scan left to right,
replacing each non-overlapping occurrence of `pat` by `rep`.  The fuel is
always instantiated with the length of the scanned list, which suffices. -/
def strReplaceGo (pat rep : List Char) : Nat → List Char → List Char
  | 0, s => s
  | _ + 1, [] => []
  | fuel + 1, c :: cs =>
    if pat ≠ [] ∧ isPrefixB pat (c :: cs) then
      rep ++ strReplaceGo pat rep fuel (List.drop pat.length (c :: cs))
    else
      c :: strReplaceGo pat rep fuel cs

/-- Python `s.replace(pat, rep)` for a non-empty pattern. -/
def strReplace (pat rep s : List Char) : List Char :=
  strReplaceGo pat rep s.length s

/-- `String` version of `strReplace`, used where the source calls
`str.replace` on whole path strings. -/
def pyReplace (s pat rep : String) : String :=
  ⟨strReplace pat.data rep.data s.data⟩

/-- `"/".join`-style rendering of `Path.parts` back into `str(path)`
(relative POSIX paths). -/
def joinParts (parts : List String) : String :=
  String.intercalate "/" parts

theorem isPrefixB_cons (a : Char) (as : List Char) (b : Char) (bs : List Char) :
    isPrefixB (a :: as) (b :: bs) = (decide (a = b) && isPrefixB as bs) := rfl

theorem isPrefixB_infix {pat s : List Char} (h : isPrefixB pat s = true) :
    pat <+: s := by
  induction pat generalizing s with
  | nil => exact List.nil_prefix
  | cons a as ih =>
    cases s with
    | nil => simp [isPrefixB] at h
    | cons b bs =>
      rw [isPrefixB_cons, Bool.and_eq_true, decide_eq_true_eq] at h
      exact h.1 ▸ (List.prefix_cons_inj a).mpr (ih h.2)

theorem containsSub_of_isPrefixB {pat s : List Char}
    (h : isPrefixB pat s = true) : containsSub pat s = true := by
  cases s <;> simp [containsSub, h]

theorem containsSub_cons_of_tail {pat : List Char} (c : Char) {cs : List Char}
    (h : containsSub pat cs = true) : containsSub pat (c :: cs) = true := by
  simp [containsSub, h]

theorem mem_of_containsSub_singleton {a : Char} {s : List Char}
    (h : containsSub [a] s = true) : a ∈ s := by
  induction s with
  | nil => simp [containsSub, isPrefixB] at h
  | cons c cs ih =>
    rw [containsSub, Bool.or_eq_true] at h
    rcases h with h | h
    · rw [isPrefixB_cons, Bool.and_eq_true, decide_eq_true_eq] at h
      exact h.1 ▸ List.mem_cons_self c cs
    · exact List.mem_cons_of_mem c (ih h)

theorem strReplaceGo_id {pat rep : List Char}
    (fuel : Nat) {s : List Char} (h : containsSub pat s = false) :
    strReplaceGo pat rep fuel s = s := by
  induction fuel generalizing s with
  | zero => rfl
  | succ fuel ih =>
    cases s with
    | nil => rfl
    | cons c cs =>
      rw [containsSub, Bool.or_eq_false_iff] at h
      rw [strReplaceGo, if_neg]
      · rw [ih h.2]
      · rintro ⟨-, hpre⟩
        rw [h.1] at hpre
        exact Bool.false_ne_true hpre

/-- If the pattern does not occur in `s`, Python `s.replace(pat, rep)`
returns `s` unchanged. -/
theorem strReplace_id {pat rep s : List Char}
    (h : containsSub pat s = false) : strReplace pat rep s = s :=
  strReplaceGo_id s.length h

/-! ## common.py : policy tables and the path classifier -/

/-- Taxonomy stage (`common.State`). -/
inductive State where
  | NEW
  | ORIGINAL
  | LAB
  | ALBUM
  | PRINT
deriving DecidableEq, Repr

/-- `common.state_dirs`. -/
def state_dirs : State → String
  | .NEW => "0_new"
  | .ORIGINAL => "1_original"
  | .LAB => "2_lab"
  | .ALBUM => "3_album"
  | .PRINT => "4_print"

/-- The five stage directory names, in stage order. -/
def stage_dir_names : List String :=
  ["0_new", "1_original", "2_lab", "3_album", "4_print"]

/-- `common.type_dirs`. -/
def type_dirs : List String := ["raw", "jpg", "audio", "video"]

/-- `common.tags`. -/
def tags : List String := ["@new", "@original", "@lab", "@album", "@print"]

/-- `common.tag_dirs` (total on the five tags; never consulted elsewhere). -/
def tag_dirs (t : String) : String :=
  if t = "@new" then "0_new"
  else if t = "@original" then "1_original"
  else if t = "@lab" then "2_lab"
  else if t = "@album" then "3_album"
  else "4_print"

/-- `re.match(r"\d{4}-\d{2}-\d{2}_.*", part)`: four digits, dash, two
digits, dash, two digits, underscore, then anything. -/
def eventMatch (s : String) : Bool :=
  match s.data with
  | y1 :: y2 :: y3 :: y4 :: s1 :: m1 :: m2 :: s2 :: d1 :: d2 :: u :: _ =>
    y1.isDigit && y2.isDigit && y3.isDigit && y4.isDigit &&
    s1 = '-' && m1.isDigit && m2.isDigit && s2 = '-' &&
    d1.isDigit && d2.isDigit && u = '_'
  | _ => false

/-- `re.match(r"\d{4}", part)`: the first four characters exist and are
digits (`re.match` only anchors at the start of the string). -/
def yearMatch (s : String) : Bool :=
  match s.data with
  | a :: b :: c :: d :: _ => a.isDigit && b.isDigit && c.isDigit && d.isDigit
  | _ => false

/-- `int(part[:4])` for a segment whose first four characters are digits. -/
def yearVal (s : String) : Nat :=
  (s.data.take 4).foldl (fun a c => a * 10 + (c.toNat - 48)) 0

/-- `part.split("_")[-1]`. -/
def lastUnder (s : String) : String :=
  ⟨(s.data.splitOn '_').getLastD []⟩

/-- Membership of `part.split("_")[-1]` in `common.type_dirs`. -/
def typeMatch (s : String) : Bool :=
  type_dirs.contains (lastUnder s)

/-- The `match(part)` statement of `parse_path`: the five stage directory
names map to their stage, everything else to `None`. -/
def stageOf (s : String) : Option State :=
  if s = "0_new" then some .NEW
  else if s = "1_original" then some .ORIGINAL
  else if s = "2_lab" then some .LAB
  else if s = "3_album" then some .ALBUM
  else if s = "4_print" then some .PRINT
  else none

/-- `common.Pwf_path_info`, with the class-level defaults. -/
structure Pwf_path_info where
  state : Option State := none
  is_event_dir : Bool := false
  year : Option Nat := none
  event : Option String := none
  file_type : Option String := none
deriving DecidableEq, Repr

/-- The body of the `for part in parts` loop of `common.parse_path`.
`lastPart` is `parts[-1]`, fixed before the loop starts. -/
def parse_step (lastPart : Option String) (info : Pwf_path_info)
    (part : String) : Pwf_path_info :=
  if eventMatch part then
    { info with
      event := some part
      is_event_dir := if lastPart = some part then true else info.is_event_dir }
  else if yearMatch part then
    { info with year := some (yearVal part) }
  else if typeMatch part then
    { info with file_type := some (lastUnder part) }
  else if info.state = none then
    { info with state := stageOf part }
  else
    info

/-- The `for part in parts` loop of `common.parse_path` run from the
freshly constructed `Pwf_path_info()`. -/
def parse_raw (parts : List String) : Pwf_path_info :=
  parts.foldl (parse_step parts.getLast?) {}

/-- The year back-fill after the loop:
`if info.year is None and info.event is not None: info.year = int(info.event[:4])`. -/
def parse_backfill (info : Pwf_path_info) : Pwf_path_info :=
  if info.year = none ∧ info.event ≠ none then
    { info with year := info.event.map yearVal }
  else info

/-- `common.parse_path`.  The only exception the source can raise here is
the classification `ValueError` (the two `int(...)` calls are guarded by
the regexes, which force the first four characters to be digits). -/
def parse_path (parts : List String) : Except String Pwf_path_info :=
  if (parse_backfill (parse_raw parts)).state = none then
    .error "Cannot parse state from path!"
  else
    .ok (parse_backfill (parse_raw parts))

example : parse_path ["1_original", "2024", "2024-10-30_ev_1", "jpg"] =
    .ok { state := some .ORIGINAL, is_event_dir := false, year := some 2024,
          event := some "2024-10-30_ev_1", file_type := some "jpg" } := rfl

example : parse_path ["2020", "2021", "0_new"] =
    .ok { state := some .NEW, year := some 2021 } := rfl

example : (parse_path ["pics", "nothing"]).isOk = false := by decide

/-! ## Properties of the classifier loop -/

theorem stageOf_eq_some {p : String} {st : State} (h : stageOf p = some st) :
    p = state_dirs st := by
  unfold stageOf at h
  split_ifs at h with h1 h2 h3 h4 h5
  · obtain rfl := Option.some.inj h; simpa [state_dirs] using h1
  · obtain rfl := Option.some.inj h; simpa [state_dirs] using h2
  · obtain rfl := Option.some.inj h; simpa [state_dirs] using h3
  · obtain rfl := Option.some.inj h; simpa [state_dirs] using h4
  · obtain rfl := Option.some.inj h; simpa [state_dirs] using h5

theorem stageOf_ne_none_iff {p : String} :
    stageOf p ≠ none ↔ p ∈ stage_dir_names := by
  unfold stageOf
  split_ifs with h1 h2 h3 h4 h5
  · subst h1; decide
  · subst h2; decide
  · subst h3; decide
  · subst h4; decide
  · subst h5; decide
  · simp [stage_dir_names, h1, h2, h3, h4, h5]

/-- None of the five stage directory names is captured by the event, year
or type-directory branches that precede the stage match in the loop. -/
theorem stage_name_no_earlier_branch {p : String} (h : stageOf p ≠ none) :
    eventMatch p = false ∧ yearMatch p = false ∧ typeMatch p = false := by
  rw [stageOf_ne_none_iff, stage_dir_names] at h
  simp only [List.mem_cons, List.not_mem_nil, or_false] at h
  rcases h with h | h | h | h | h <;> subst h <;> exact ⟨rfl, rfl, rfl⟩

theorem stageOf_eq_none_of_matched {p : String}
    (h : eventMatch p = true ∨ yearMatch p = true ∨ typeMatch p = true) :
    stageOf p = none := by
  by_contra hne
  rcases stage_name_no_earlier_branch hne with ⟨h1, h2, h3⟩
  rcases h with h | h | h <;> simp_all

theorem parse_step_state_none_iff (l? : Option String) (info : Pwf_path_info)
    (p : String) :
    (parse_step l? info p).state = none ↔
      (info.state = none ∧ stageOf p = none) := by
  by_cases h1 : eventMatch p
  · simp [parse_step, h1, stageOf_eq_none_of_matched (Or.inl h1)]
  · by_cases h2 : yearMatch p
    · simp [parse_step, h1, h2,
        stageOf_eq_none_of_matched (Or.inr (Or.inl h2))]
    · by_cases h3 : typeMatch p
      · simp [parse_step, h1, h2, h3,
          stageOf_eq_none_of_matched (Or.inr (Or.inr h3))]
      · by_cases h4 : info.state = none
        · simp [parse_step, h1, h2, h3, h4]
        · simp [parse_step, h1, h2, h3, h4]

theorem foldl_parse_step_state_none (l? : Option String) :
    ∀ (parts : List String) (info : Pwf_path_info),
      (parts.foldl (parse_step l?) info).state = none ↔
        (info.state = none ∧ ∀ p ∈ parts, stageOf p = none) := by
  intro parts
  induction parts with
  | nil => simp
  | cons p ps ih =>
    intro info
    rw [List.foldl_cons, ih, parse_step_state_none_iff]
    constructor
    · rintro ⟨⟨h1, h2⟩, h3⟩
      exact ⟨h1, by simpa [h2] using h3⟩
    · rintro ⟨h1, h3⟩
      exact ⟨⟨h1, h3 p (List.mem_cons_self p ps)⟩,
        fun q hq => h3 q (List.mem_cons_of_mem p hq)⟩

theorem parse_step_state_some {l? : Option String} {info : Pwf_path_info}
    {p : String} {st : State}
    (h : (parse_step l? info p).state = some st) :
    info.state = some st ∨ stageOf p = some st := by
  by_cases h1 : eventMatch p
  · simp_all [parse_step, h1]
  · by_cases h2 : yearMatch p
    · simp_all [parse_step, h1, h2]
    · by_cases h3 : typeMatch p
      · simp_all [parse_step, h1, h2, h3]
      · by_cases h4 : info.state = none
        · simp_all [parse_step, h1, h2, h3, h4]
        · simp_all [parse_step, h1, h2, h3, h4]

theorem foldl_parse_step_state_some (l? : Option String) :
    ∀ (parts : List String) (info : Pwf_path_info) (st : State),
      (parts.foldl (parse_step l?) info).state = some st →
        info.state = some st ∨ state_dirs st ∈ parts := by
  intro parts
  induction parts with
  | nil => simp
  | cons p ps ih =>
    intro info st h
    rw [List.foldl_cons] at h
    rcases ih _ st h with h2 | h2
    · rcases parse_step_state_some h2 with h3 | h3
      · exact Or.inl h3
      · exact Or.inr (by simp [← stageOf_eq_some h3])
    · exact Or.inr (List.mem_cons_of_mem p h2)

/-- Last-write-wins characterisation of an `Option`-valued loop variable
that is overwritten at every element of a filtered sublist. -/
theorem foldl_overwrite {β γ : Type} (g : β → Option γ) :
    ∀ (l : List β) (init : Option γ),
      l.foldl (fun _ p => g p) init =
        match l.getLast? with
        | some p => g p
        | none => init := by
  intro l
  induction l with
  | nil => intro init; rfl
  | cons p ps ih =>
    intro init
    rw [List.foldl_cons, ih]
    cases ps with
    | nil => rfl
    | cons q qs =>
      rw [List.getLast?_cons_cons]
      cases hq : (q :: qs).getLast? with
      | some x => rfl
      | none => simp at hq

theorem foldl_parse_step_year (l? : Option String) :
    ∀ (parts : List String) (info : Pwf_path_info),
      (parts.foldl (parse_step l?) info).year =
        (parts.filter fun p => !eventMatch p && yearMatch p).foldl
          (fun _ p => some (yearVal p)) info.year := by
  intro parts
  induction parts with
  | nil => simp
  | cons p ps ih =>
    intro info
    rw [List.foldl_cons, ih]
    by_cases h1 : eventMatch p
    · simp [parse_step, h1]
    · by_cases h2 : yearMatch p
      · simp [parse_step, h1, h2]
      · have : (parse_step l? info p).year = info.year := by
          unfold parse_step
          split_ifs <;> simp_all
        simp [h1, h2, this]

theorem foldl_parse_step_event (l? : Option String) :
    ∀ (parts : List String) (info : Pwf_path_info),
      (parts.foldl (parse_step l?) info).event =
        (parts.filter eventMatch).foldl (fun _ p => some p) info.event := by
  intro parts
  induction parts with
  | nil => simp
  | cons p ps ih =>
    intro info
    rw [List.foldl_cons, ih]
    by_cases h1 : eventMatch p
    · simp [parse_step, h1]
    · have : (parse_step l? info p).event = info.event := by
        unfold parse_step
        split_ifs <;> simp_all
      simp [h1, this]

theorem parse_backfill_state (info : Pwf_path_info) :
    (parse_backfill info).state = info.state := by
  unfold parse_backfill
  split_ifs <;> rfl

theorem parse_backfill_event (info : Pwf_path_info) :
    (parse_backfill info).event = info.event := by
  unfold parse_backfill
  split_ifs <;> rfl

/-- Unfolding of a successful `parse_path` run into its loop result plus
the year back-fill. -/
theorem parse_path_ok {parts : List String} {info : Pwf_path_info}
    (h : parse_path parts = .ok info) :
    info = parse_backfill (parse_raw parts) ∧ (parse_raw parts).state ≠ none := by
  unfold parse_path at h
  split at h
  next => exact absurd h (by simp)
  next hn =>
    refine ⟨(Except.ok.inj h).symm, ?_⟩
    rw [parse_backfill_state] at hn
    exact hn

/-! ## Claim C2 -/

/-- Claim C2 (confirmed).  `parse_path p` succeeds (does not raise the
classification error) if and only if some segment of `p` is exactly one of
the five stage directory names `0_new`, `1_original`, `2_lab`, `3_album`,
`4_print`; and whenever it succeeds, the directory name of the returned
state is literally one of the segments of `p`. -/
theorem C2_parse_path_stage :
    (∀ parts : List String,
        (parse_path parts).isOk = true ↔ ∃ p ∈ parts, p ∈ stage_dir_names) ∧
    (∀ (parts : List String) (info : Pwf_path_info) (st : State),
        parse_path parts = .ok info → info.state = some st →
        state_dirs st ∈ parts) := by
  constructor
  · intro parts
    have hiff : (parse_raw parts).state = none ↔ ∀ p ∈ parts, stageOf p = none := by
      unfold parse_raw
      rw [foldl_parse_step_state_none]
      simp
    constructor
    · intro hok
      by_contra hno
      push_neg at hno
      have hnone : (parse_raw parts).state = none :=
        hiff.mpr (fun p hp => by
          by_contra hsome
          exact hno p hp (stageOf_ne_none_iff.mp hsome))
      unfold parse_path at hok
      rw [parse_backfill_state, hnone] at hok
      simp [Except.isOk, Except.toBool] at hok
    · rintro ⟨p, hp, hname⟩
      have hne : ¬(parse_raw parts).state = none := fun hn =>
        (stageOf_ne_none_iff.mpr hname) (hiff.mp hn p hp)
      unfold parse_path
      rw [parse_backfill_state, if_neg hne]
      rfl
  · intro parts info st h hstate
    obtain ⟨hinfo, -⟩ := parse_path_ok h
    have hsome : (parse_raw parts).state = some st := by
      rw [hinfo, parse_backfill_state] at hstate
      exact hstate
    unfold parse_raw at hsome
    rcases foldl_parse_step_state_some parts.getLast? parts {} st hsome with h0 | h0
    · exact absurd h0 (by simp)
    · exact h0

/-- Witness for C2 at the concrete path `2_lab/x`. -/
theorem C2_parse_path_stage_witness :
    ((parse_path ["2_lab", "x"]).isOk = true ↔
        ∃ p ∈ ["2_lab", "x"], p ∈ stage_dir_names) ∧
    state_dirs State.LAB ∈ ["2_lab", "x"] :=
  ⟨C2_parse_path_stage.1 ["2_lab", "x"],
   C2_parse_path_stage.2 ["2_lab", "x"]
     { state := some State.LAB } State.LAB rfl rfl⟩

/-! ## Claim C8 -/

/-- Claim C8 (amended).  The event-date pattern takes priority over the
bare-year pattern on the same segment (`info.event` is determined solely by
the event-matching segments), but when a path contains several bare-year
segments the year field is set from the **last** such segment in
left-to-right order, not the first; bare years take precedence over the
event back-fill, which is used only when no bare-year segment exists. -/
theorem C8_year_from_last_bare_year_segment :
    ∀ (parts : List String) (info : Pwf_path_info),
      parse_path parts = .ok info →
      (info.year =
        match (parts.filter fun p => !eventMatch p && yearMatch p).getLast? with
        | some p => some (yearVal p)
        | none => (parts.filter fun p => eventMatch p).getLast?.map yearVal) ∧
      info.event = (parts.filter fun p => eventMatch p).getLast? := by
  intro parts info h
  obtain ⟨hinfo, -⟩ := parse_path_ok h
  have hyear : (parse_raw parts).year =
      (parts.filter fun p => !eventMatch p && yearMatch p).foldl
        (fun _ p => some (yearVal p)) none := by
    unfold parse_raw
    rw [foldl_parse_step_year]
  have hevent : (parse_raw parts).event =
      (parts.filter fun p => eventMatch p).foldl (fun _ p => some p) none := by
    unfold parse_raw
    rw [foldl_parse_step_event]
  rw [foldl_overwrite (fun p => some (yearVal p))] at hyear
  rw [foldl_overwrite (fun p => some p)] at hevent
  have heventfix : info.event = (parts.filter fun p => eventMatch p).getLast? := by
    rw [hinfo, parse_backfill_event, hevent]
    cases (parts.filter fun p => eventMatch p).getLast? <;> rfl
  refine ⟨?_, heventfix⟩
  cases hl : (parts.filter fun p => !eventMatch p && yearMatch p).getLast? with
  | some p =>
    have h1 : (parse_raw parts).year = some (yearVal p) := by rw [hyear, hl]
    rw [hinfo]
    unfold parse_backfill
    rw [if_neg (by simp [h1])]
    exact h1
  | none =>
    have h1 : (parse_raw parts).year = none := by rw [hyear, hl]
    have h2 : (parse_raw parts).event =
        (parts.filter fun p => eventMatch p).getLast? := by
      rw [hevent]
      cases (parts.filter fun p => eventMatch p).getLast? <;> rfl
    rw [hinfo]
    unfold parse_backfill
    by_cases he : (parse_raw parts).event = none
    · rw [if_neg (by simp [he])]
      rw [h1, ← h2, he]
      rfl
    · rw [if_pos ⟨h1, he⟩]
      simp only []
      rw [h2]

/-- Witness for the amended C8 at the concrete path `2020/2021/0_new`. -/
theorem C8_year_witness :
    ((some 2021 : Option Nat) =
        match (["2020", "2021", "0_new"].filter
            fun p => !eventMatch p && yearMatch p).getLast? with
        | some p => some (yearVal p)
        | none => (["2020", "2021", "0_new"].filter
            fun p => eventMatch p).getLast?.map yearVal) ∧
    ((none : Option String) =
        (["2020", "2021", "0_new"].filter fun p => eventMatch p).getLast?) :=
  C8_year_from_last_bare_year_segment ["2020", "2021", "0_new"]
    { state := some State.NEW, year := some 2021 } rfl

/-- Counterexample refuting C8 as stated: in `2020/2021/0_new` the bare-year
segments are `2020` then `2021`; the claim says the year is taken from the
first (`2020`), but `parse_path` returns `2021` (the last one wins). -/
theorem C8_counterexample :
    parse_path ["2020", "2021", "0_new"] =
      .ok { state := some State.NEW, year := some 2021 } ∧
    (["2020", "2021", "0_new"].filter fun p => !eventMatch p && yearMatch p)
      = ["2020", "2021"] ∧
    yearVal "2020" = 2020 ∧
    (some 2021 : Option Nat) ≠ some 2020 :=
  ⟨rfl, rfl, rfl, by decide⟩

/-! ## pwf_check.py : checklist resolution -/

/-- The seven check categories of `pwf_check.things_to_check`
(`cs`, `dup`, `miss`, `name`, `path`, `prot`, `raw`). -/
inductive Check where
  | cs
  | dup
  | miss
  | name
  | path
  | prot
  | raw
deriving DecidableEq, Repr

/-- `pwf_check.things_to_check`. -/
def things_to_check : Finset Check :=
  {Check.cs, Check.dup, Check.miss, Check.name, Check.path, Check.prot,
   Check.raw}

/-- The body of `pwf_check._get_checklist` after `parse_path` has
succeeded.  Python mutates the caller's `ignorelist` set in place with
`update`; functionally that is a union.  The
`if "name" not in checklist: logger.warning(...)` step only logs and is
omitted. -/
def checklist_of (path_info : Pwf_path_info)
    (ignorelist onlylist : Finset Check) : Except String (Finset Check) :=
  if path_info.state = some State.NEW ∧ Check.dup ∈ ignorelist then
    .error "Ignoring duplicate violations is not allowed in 0_new!"
  else if path_info.state = some State.NEW ∧ Check.path ∈ ignorelist then
    .error "Ignoring path violations is not allowed in 0_new!"
  else
    let ignorelist :=
      if path_info.state = some State.NEW then
        ignorelist ∪ {Check.cs, Check.miss, Check.prot}
      else if path_info.state = some State.LAB then
        ignorelist ∪ {Check.cs, Check.miss, Check.prot, Check.path, Check.raw}
      else if path_info.state ≠ some State.ORIGINAL then
        ignorelist ∪ {Check.cs, Check.prot, Check.miss}
      else ignorelist
    let checklist :=
      (if onlylist = ∅ then things_to_check else onlylist) \ ignorelist
    if checklist = ∅ then
      .error "Everything ignored, nothing to check!"
    else
      .ok checklist

/-- `pwf_check._get_checklist` (`None` list arguments default to the empty
set before this logic runs). -/
def get_checklist (parts : List String)
    (ignorelist onlylist : Finset Check) : Except String (Finset Check) :=
  match parse_path parts with
  | .error e => .error e
  | .ok path_info => checklist_of path_info ignorelist onlylist

theorem get_checklist_eq {parts : List String} {info : Pwf_path_info}
    (ignorelist onlylist : Finset Check) (h : parse_path parts = .ok info) :
    get_checklist parts ignorelist onlylist =
      checklist_of info ignorelist onlylist := by
  unfold get_checklist
  rw [h]

/-! ## Claim C3 -/

/-- Claim C3 (confirmed).  For a path classified as LAB, checklist
resolution with empty user ignore- and only-lists merges
`{cs, miss, prot, path, raw}` into the ignore set, leaving exactly
`{name, dup}` as the effective checklist. -/
theorem C3_lab_default_checklist :
    ∀ (parts : List String) (info : Pwf_path_info),
      parse_path parts = .ok info → info.state = some State.LAB →
      get_checklist parts ∅ ∅ = .ok {Check.name, Check.dup} := by
  intro parts info h hstate
  rw [get_checklist_eq ∅ ∅ h]
  unfold checklist_of
  rw [hstate]
  have hsd : things_to_check \
      {Check.cs, Check.miss, Check.prot, Check.path, Check.raw} =
      {Check.name, Check.dup} := by
    ext x
    cases x <;> simp [things_to_check]
  have hne : ({Check.name, Check.dup} : Finset Check) ≠ ∅ := by
    simp
  simp [hsd, hne]

/-- Witness for C3 at the concrete path `2_lab`. -/
theorem C3_lab_default_checklist_witness :
    get_checklist ["2_lab"] ∅ ∅ = .ok {Check.name, Check.dup} :=
  C3_lab_default_checklist ["2_lab"] { state := some State.LAB } rfl rfl

/-! ## Claim C10 -/

/-- Claim C10 (confirmed).  For a path classified as ALBUM or PRINT (the
stages other than NEW, LAB and ORIGINAL), checklist resolution merges
`{cs, prot, miss}` into the ignore set: with no user lists the effective
checklist is exactly `{name, dup, path, raw}`, and an only-list consisting
solely of the three exempted categories leaves the checklist empty and
raises the nothing-to-check policy error. -/
theorem C10_album_print_checklist :
    ∀ (parts : List String) (info : Pwf_path_info),
      parse_path parts = .ok info →
      (info.state = some State.ALBUM ∨ info.state = some State.PRINT) →
      get_checklist parts ∅ ∅ = .ok {Check.name, Check.dup, Check.path, Check.raw} ∧
      get_checklist parts ∅ {Check.cs, Check.prot, Check.miss} =
        .error "Everything ignored, nothing to check!" := by
  intro parts info h hstate
  rw [get_checklist_eq ∅ ∅ h,
    get_checklist_eq ∅ {Check.cs, Check.prot, Check.miss} h]
  unfold checklist_of
  have hsd : things_to_check \ {Check.cs, Check.prot, Check.miss} =
      {Check.name, Check.dup, Check.path, Check.raw} := by
    ext x
    cases x <;> simp [things_to_check]
  have hne : ({Check.name, Check.dup, Check.path, Check.raw} : Finset Check)
      ≠ ∅ := by
    simp
  have honly : ({Check.cs, Check.prot, Check.miss} : Finset Check) ≠ ∅ := by
    simp
  rcases hstate with hstate | hstate <;> rw [hstate] <;>
    exact ⟨by simp [hsd, hne], by simp [honly]⟩

/-- Witness for C10 at the concrete path `3_album`. -/
theorem C10_album_print_checklist_witness :
    get_checklist ["3_album"] ∅ ∅ =
      .ok {Check.name, Check.dup, Check.path, Check.raw} ∧
    get_checklist ["3_album"] ∅ {Check.cs, Check.prot, Check.miss} =
      .error "Everything ignored, nothing to check!" :=
  C10_album_print_checklist ["3_album"] { state := some State.ALBUM } rfl
    (Or.inl rfl)

/-! ## pwf_check.py : the protection check -/

/-- `int(oct(mode)[-3:], 16)` of `_check_protection`: for any `stat` mode
(always at least `0o100`, so `oct(mode)` has at least three octal digits)
the final three characters of the octal rendering are the three low octal
digits of `mode`, and parsing them back as *hexadecimal* places each octal
digit in a hex-digit position. -/
def ogo_mode (mode : Nat) : Nat :=
  (mode / 64 % 8) * 256 + (mode / 8 % 8) * 16 + mode % 8

/-- The `is_locked` test of `_check_protection`:
`(int(oct(mode)[-3:], 16) & 0x222) == 0`. -/
def is_locked (mode : Nat) : Bool :=
  (ogo_mode mode) &&& 0x222 == 0

/-- `_check_protection` collects (and then reports) every scanned entry
whose mode is not locked.  An entry is a `(printable name, st_mode)` pair;
the scan order and the symlink handling (`follow_symlinks=False`) do not
affect which entries are reported. -/
def protection_violations (entries : List (String × Nat)) :
    List (String × Nat) :=
  entries.filter (fun e => !is_locked e.2)

theorem and_146_mod (m : Nat) : m &&& 146 = (m % 512) &&& 146 := by
  apply Nat.eq_of_testBit_eq
  intro i
  simp only [Nat.testBit_and]
  by_cases hi : i < 9
  · have h9 : (512 : Nat) = 2 ^ 9 := by norm_num
    rw [h9, Nat.testBit_mod_two_pow]
    simp [hi]
  · have hle : (512 : Nat) ≤ 2 ^ i := by
      calc (512 : Nat) = 2 ^ 9 := by norm_num
        _ ≤ 2 ^ i := Nat.pow_le_pow_right (by norm_num) (by omega)
    have h146 : Nat.testBit 146 i = false :=
      Nat.testBit_lt_two_pow (lt_of_lt_of_le (by norm_num) hle)
    simp [h146]

theorem ogo_mode_mod (m : Nat) : ogo_mode m = ogo_mode (m % 512) := by
  unfold ogo_mode
  omega

set_option maxRecDepth 4096 in
/-- The hex reinterpretation masked with `0x222` agrees with the direct
octal mask `0o222` on every mode. -/
theorem is_locked_eq_and (m : Nat) : is_locked m = (m &&& 0o222 == 0) := by
  have hfin : ∀ r : Fin 512, is_locked r.val = (r.val &&& 146 == 0) := by
    decide
  have hm : m % 512 < 512 := Nat.mod_lt _ (by norm_num)
  have h1 : is_locked m = is_locked (m % 512) := by
    unfold is_locked
    rw [ogo_mode_mod]
  rw [h1, show (0o222 : Nat) = 146 from rfl, and_146_mod m]
  exact hfin ⟨m % 512, hm⟩

/-! ## Claim C4 -/

/-- Claim C4 (confirmed).  The protection check reports an entry as not
protected exactly when its mode has one of the write bits `0o222` set:
the code's hex reinterpretation `int(oct(mode)[-3:], 16) & 0x222 == 0` is
equivalent to `mode & 0o222 == 0` (for the modes `stat` can produce, which
always have at least three octal digits); in particular a file with mode
`0o664` is not protected, `0o444` is protected, a directory with `0o775`
is not protected and one with `0o555` is protected. -/
theorem C4_protection_check :
    (∀ (entries : List (String × Nat)) (e : String × Nat),
        (∀ x ∈ entries, 64 ≤ x.2) →
        (e ∈ protection_violations entries ↔
          e ∈ entries ∧ ¬(e.2 &&& 0o222 = 0))) ∧
    (∀ mode : Nat, 64 ≤ mode → is_locked mode = (mode &&& 0o222 == 0)) ∧
    is_locked 0o100664 = false ∧ is_locked 0o100444 = true ∧
    is_locked 0o40775 = false ∧ is_locked 0o40555 = true := by
  refine ⟨?_, fun m _ => is_locked_eq_and m, by decide, by decide,
    by decide, by decide⟩
  intro entries e _
  simp only [protection_violations, List.mem_filter, Bool.not_eq_true',
    is_locked_eq_and]
  constructor
  · rintro ⟨he, hv⟩
    refine ⟨he, ?_⟩
    simpa using hv
  · rintro ⟨he, hv⟩
    refine ⟨he, ?_⟩
    simpa using hv

/-- Witness for C4 at a concrete unprotected file entry with mode
`0o100664`. -/
theorem C4_protection_check_witness :
    (("DSC_100.jpg", 0o100664) ∈
        protection_violations [("DSC_100.jpg", 0o100664)] ↔
      ("DSC_100.jpg", 0o100664) ∈ [("DSC_100.jpg", 0o100664)] ∧
        ¬((0o100664 : Nat) &&& 0o222 = 0)) ∧
    is_locked 0o100664 = ((0o100664 : Nat) &&& 0o222 == 0) :=
  ⟨C4_protection_check.1 [("DSC_100.jpg", 0o100664)] ("DSC_100.jpg", 0o100664)
      (by decide),
   C4_protection_check.2.1 0o100664 (by decide)⟩

/-! ## common.py / pwf_check.py : legal names and name fixing -/

/-- One character of the class `common.legal_characters =
r"\wäöüÄÖÜé~._-"`.  `\w` is modelled as alphanumerics plus underscore; the
accented letters of the source are listed explicitly. -/
def legal_char (c : Char) : Bool :=
  c.isAlphanum || c = '_' ||
  (['ä', 'ö', 'ü', 'Ä', 'Ö', 'Ü', 'é', '~', '.', '-'] : List Char).contains c

/-- `re.match(rf"^[{common.legal_characters}]+$", name)`: non-empty and
every character legal. -/
def legal_name (name : List Char) : Bool :=
  !name.isEmpty && name.all legal_char

/-- `common.name_replacements`.  The source stores the three pairs in a
Python `set`, whose iteration order is unspecified; every statement below
is insensitive to the ordering (see `C9_counterexample`), and the literal
is listed here in source order. -/
def name_replacements : List (List Char × List Char) :=
  [(" ".data, "_".data), ("&".data, "und".data), ("-_".data, "".data)]

/-- The replacement cascade of `_fix_names`:
`for r in common.name_replacements: newname = newname.replace(r[0], r[1])`. -/
def apply_name_replacements (name : List Char) : List Char :=
  name_replacements.foldl (fun n r => strReplace r.1 r.2 n) name

theorem containsSub_eq_false_of_legal {name : List Char} {c : Char}
    (hl : legal_name name = true) (hc : legal_char c = false) :
    containsSub [c] name = false := by
  cases h : containsSub [c] name
  · rfl
  · exfalso
    have hm := mem_of_containsSub_singleton h
    rw [legal_name, Bool.and_eq_true, List.all_eq_true] at hl
    have := hl.2 c hm
    rw [this] at hc
    exact Bool.noConfusion hc

/-! ## Claim C9 -/

/-- Claim C9 (amended).  The replacement table is a no-op on every legal
name that does not contain the substring `-_`; since both `-` and `_` are
legal characters, a legal name *can* contain `-_`, and on such names the
table is not a no-op (see the counterexample), although `_fix_names` never
selects a legal name for fixing in the first place. -/
theorem C9_replacements_noop_on_legal :
    ∀ name : List Char, legal_name name = true →
      containsSub ['-', '_'] name = false →
      apply_name_replacements name = name := by
  intro name hlegal hnd
  unfold apply_name_replacements name_replacements
  simp only [List.foldl]
  rw [strReplace_id (containsSub_eq_false_of_legal hlegal (by decide)),
    strReplace_id (containsSub_eq_false_of_legal hlegal (by decide)),
    strReplace_id hnd]

/-- Witness for the amended C9 on the legal name `abc`. -/
theorem C9_replacements_noop_witness :
    apply_name_replacements ['a', 'b', 'c'] = ['a', 'b', 'c'] :=
  C9_replacements_noop_on_legal ['a', 'b', 'c'] (by decide) (by decide)

/-- The six possible iteration orders of the three-element Python set
`common.name_replacements`. -/
def replacement_orders : List (List (List Char × List Char)) :=
  [[(" ".data, "_".data), ("&".data, "und".data), ("-_".data, "".data)],
   [(" ".data, "_".data), ("-_".data, "".data), ("&".data, "und".data)],
   [("&".data, "und".data), (" ".data, "_".data), ("-_".data, "".data)],
   [("&".data, "und".data), ("-_".data, "".data), (" ".data, "_".data)],
   [("-_".data, "".data), (" ".data, "_".data), ("&".data, "und".data)],
   [("-_".data, "".data), ("&".data, "und".data), (" ".data, "_".data)]]

/-- Counterexample refuting C9 as stated: `a-_b` matches the legal
character class yet the replacement table (under every one of the six
possible iteration orders of the Python set) rewrites it to `ab`. -/
theorem C9_counterexample :
    legal_name ['a', '-', '_', 'b'] = true ∧
    apply_name_replacements ['a', '-', '_', 'b'] = ['a', 'b'] ∧
    (['a', 'b'] : List Char) ≠ ['a', '-', '_', 'b'] ∧
    (replacement_orders.all fun order =>
      order.foldl (fun n r => strReplace r.1 r.2 n) ['a', '-', '_', 'b']
        == ['a', 'b']) = true :=
  ⟨by decide, by decide, by decide, by decide⟩

/-! ## pwf_link.py : tag resolution -/

/-- `pwf_link._tag_to_path`.  The source works on the path *string*
(`src = str(src_path)`) with Python `str.replace`, which replaces every
occurrence; `pyReplace` mirrors that.  The `src_info.state is None` check
is kept even though `parse_path` can only succeed with a stage set. -/
def tag_to_path (src_parts : List String) (tag : String) :
    Except String String :=
  let src := joinParts src_parts
  match parse_path src_parts with
  | .error e => .error e
  | .ok src_info =>
    if tag ∉ tags then
      .error "Invalid tag provided!"
    else if src_info.event = none then
      .error "Linking to tag only allowed from within event dir!"
    else
      match src_info.state with
      | none => .error "Invalid src_path provided!"
      | some st =>
        let dst := pyReplace src (state_dirs st) (tag_dirs tag)
        if st = State.LAB ∧ containsSub "3_final_".data src.data = false then
          .error "Not allowed to link from this src_path!"
        else
          let dst := if st = State.LAB then pyReplace dst "3_final_" "" else dst
          if tag = "@lab" then
            match src_info.file_type with
            | none => .error "Cannot determine file type dir from src_path!"
            | some ftype => .ok (pyReplace dst ftype ("2_original_" ++ ftype))
          else
            .ok dst

/-! ## Claim C7 -/

/-- Claim C7 (amended).  `_tag_to_path` with tag `@lab` does **not**
require the source stage to be ORIGINAL (that restriction is enforced
later, by `_check_is_allowed`): for every successfully classified source
with an event, a recognizable file-type segment and a stage other than
LAB, it succeeds, returning the source string with the stage directory
replaced by `2_lab` and the occurrences of the file type rewritten with a
`2_original_` prefix; and it fails with the policy error when no
file-type segment was recognized. -/
theorem C7_tag_to_path_lab :
    (∀ (src_parts : List String) (info : Pwf_path_info) (st : State)
        (ft : String),
      parse_path src_parts = .ok info → info.state = some st →
      st ≠ State.LAB → info.event ≠ none → info.file_type = some ft →
      tag_to_path src_parts "@lab" =
        .ok (pyReplace
          (pyReplace (joinParts src_parts) (state_dirs st) "2_lab")
          ft ("2_original_" ++ ft))) ∧
    (∀ (src_parts : List String) (info : Pwf_path_info) (st : State),
      parse_path src_parts = .ok info → info.state = some st →
      st ≠ State.LAB → info.event ≠ none → info.file_type = none →
      tag_to_path src_parts "@lab" =
        .error "Cannot determine file type dir from src_path!") := by
  constructor
  · intro src_parts info st ft h hstate hlab hevent hft
    unfold tag_to_path
    rw [h]
    dsimp only
    rw [if_neg (by decide), if_neg hevent, hstate]
    dsimp only
    rw [if_neg (by simp [hlab]), if_neg hlab, if_pos rfl, hft]
    dsimp only
    rw [show tag_dirs "@lab" = "2_lab" from rfl]
  · intro src_parts info st h hstate hlab hevent hft
    unfold tag_to_path
    rw [h]
    dsimp only
    rw [if_neg (by decide), if_neg hevent, hstate]
    dsimp only
    rw [if_neg (by simp [hlab]), if_neg hlab, if_pos rfl, hft]

/-- Witness for the amended C7: the spec's own example, a source in
`1_original/2024/2024-10-30_ev/jpg`, resolves to the lab stage with the
`jpg` segment rewritten to `2_original_jpg`. -/
theorem C7_tag_to_path_lab_witness :
    tag_to_path ["1_original", "2024", "2024-10-30_ev", "jpg", "x.NEF"]
        "@lab" =
      .ok (pyReplace
        (pyReplace
          (joinParts ["1_original", "2024", "2024-10-30_ev", "jpg", "x.NEF"])
          (state_dirs State.ORIGINAL) "2_lab")
        "jpg" ("2_original_" ++ "jpg")) :=
  C7_tag_to_path_lab.1
    ["1_original", "2024", "2024-10-30_ev", "jpg", "x.NEF"]
    { state := some State.ORIGINAL, year := some 2024,
      event := some "2024-10-30_ev", file_type := some "jpg" }
    State.ORIGINAL "jpg" rfl rfl (by decide) (by decide) rfl

/-- Counterexample refuting C7 as stated: a source of stage NEW (not
ORIGINAL) with tag `@lab` does not raise — `_tag_to_path` succeeds. -/
theorem C7_counterexample :
    tag_to_path ["0_new", "2024-10-30_ev", "jpg", "x.NEF"] "@lab" =
      .ok "2_lab/2024-10-30_ev/2_original_jpg/x.NEF" ∧
    (parse_path ["0_new", "2024-10-30_ev", "jpg", "x.NEF"]).map
        (fun i => i.state) = .ok (some State.NEW) ∧
    some State.NEW ≠ some State.ORIGINAL :=
  ⟨by decide, by decide, by decide⟩

/-! ## pwf_check.py : the duplicates check

`_check_duplicates` scans the files below `path` (we take the scanned
files, with their byte contents, as the input list), groups them first by
`st_size` into the insertion-ordered dict `by_size`, then hashes the first
8000 bytes of every member of a size group of two or more into the single
dict `by_md5`, and reports every `by_md5` value with two or more members
as one duplicate group. -/

/-- A scanned regular file: its (printable) path and its byte content. -/
structure DFile where
  path : String
  content : List Nat
deriving DecidableEq, Repr

/-- `p.stat().st_size`. -/
def fsize (f : DFile) : Nat := f.content.length

/-- `pwf_protect.compute_md5sum` over an abstract digest function:
`f.read(8000)` if the read is partial, the whole content otherwise, then
the digest. -/
def compute_md5sum {α : Type} (md5 : List Nat → α) (data : List Nat)
    (partialRead : Bool) : α :=
  md5 (if partialRead then data.take 8000 else data)

/-- `defaultdict(list)` update `m[k].append(v)`: append to the existing
key (keys keep insertion order) or add a new key at the end. -/
def addGroup {κ α : Type} [DecidableEq κ] :
    List (κ × List α) → κ → α → List (κ × List α)
  | [], k, v => [(k, [v])]
  | (k', vs) :: rest, k, v =>
    if k' = k then (k', vs ++ [v]) :: rest
    else (k', vs) :: addGroup rest k v

/-- A loop `for f in L: m[keyf(f)].append(f)` over a `defaultdict`. -/
def foldGroups {κ α : Type} [DecidableEq κ] (keyf : α → κ) (L : List α)
    (m : List (κ × List α)) : List (κ × List α) :=
  L.foldl (fun m f => addGroup m (keyf f) f) m

/-- The `by_size` dict of `_check_duplicates`. -/
def by_size (files : List DFile) : List (Nat × List DFile) :=
  foldGroups fsize files []

/-- The `by_md5` dict of `_check_duplicates`: only size groups with at
least two members are fingerprinted, but all of them feed one dict. -/
def by_md5 {α : Type} [DecidableEq α] (md5 : List Nat → α)
    (files : List DFile) : List (α × List DFile) :=
  (by_size files).foldl
    (fun m kg =>
      if kg.2.length < 2 then m
      else foldGroups (fun f => compute_md5sum md5 f.content true) kg.2 m)
    []

/-- The duplicate groups `_check_duplicates` reports: every `by_md5` value
with two or more members. -/
def duplicate_groups {α : Type} [DecidableEq α] (md5 : List Nat → α)
    (files : List DFile) : List (List DFile) :=
  ((by_md5 md5 files).filter (fun kg => !decide (kg.2.length < 2))).map
    (fun kg => kg.2)

/-! ### Dictionary lemmas -/

/-- First-match lookup in the association list (unique keys are maintained
by `addGroup`, mirroring the Python dict). -/
def lookupG {κ α : Type} [DecidableEq κ] : List (κ × List α) → κ → List α
  | [], _ => []
  | (k', vs) :: rest, k => if k' = k then vs else lookupG rest k

def keysG {κ α : Type} (m : List (κ × List α)) : List κ := m.map (fun kg => kg.1)

theorem lookupG_addGroup {κ α : Type} [DecidableEq κ] :
    ∀ (m : List (κ × List α)) (k : κ) (v : α) (k' : κ),
      lookupG (addGroup m k v) k' =
        if k' = k then lookupG m k ++ [v] else lookupG m k' := by
  intro m k v
  induction m with
  | nil =>
    intro k'
    by_cases h : k' = k
    · subst h
      simp [addGroup, lookupG]
    · simp [addGroup, lookupG, h, Ne.symm h]
  | cons kg rest ih =>
    intro k'
    obtain ⟨k0, vs⟩ := kg
    by_cases hk : k' = k
    · subst hk
      by_cases h0 : k0 = k'
      · subst h0
        simp [addGroup, lookupG]
      · simp [addGroup, lookupG, h0, ih]
    · by_cases h0 : k0 = k
      · subst h0
        simp [addGroup, lookupG, hk, Ne.symm hk]
      · by_cases h1 : k0 = k'
        · subst h1
          simp [addGroup, lookupG, h0, hk]
        · simp [addGroup, lookupG, h0, h1, hk, ih]

theorem lookupG_foldGroups {κ α : Type} [DecidableEq κ] (keyf : α → κ) :
    ∀ (L : List α) (m : List (κ × List α)) (k : κ),
      lookupG (foldGroups keyf L m) k =
        lookupG m k ++ L.filter (fun f => decide (keyf f = k)) := by
  intro L
  induction L with
  | nil => intro m k; simp [foldGroups]
  | cons f fs ih =>
    intro m k
    show lookupG (foldGroups keyf fs (addGroup m (keyf f) f)) k = _
    rw [ih, lookupG_addGroup]
    by_cases h : keyf f = k
    · rw [if_pos h.symm]
      simp [h]
    · rw [if_neg (fun hh => h hh.symm)]
      simp [h]

theorem mem_keysG_addGroup {κ α : Type} [DecidableEq κ] :
    ∀ (m : List (κ × List α)) (k : κ) (v : α) (k' : κ),
      k' ∈ keysG (addGroup m k v) ↔ (k' ∈ keysG m ∨ k' = k) := by
  intro m k v
  induction m with
  | nil => intro k'; simp [addGroup, keysG]
  | cons kg rest ih =>
    intro k'
    obtain ⟨k0, vs⟩ := kg
    by_cases h0 : k0 = k
    · subst h0
      rw [show addGroup ((k0, vs) :: rest) k0 v = (k0, vs ++ [v]) :: rest from by
        simp [addGroup]]
      simp only [keysG, List.map_cons, List.mem_cons]
      tauto
    · rw [show addGroup ((k0, vs) :: rest) k v = (k0, vs) :: addGroup rest k v from by
        simp [addGroup, h0]]
      simp only [keysG, List.map_cons, List.mem_cons]
      have hih := ih k'
      simp only [keysG] at hih
      tauto

theorem nodup_keysG_addGroup {κ α : Type} [DecidableEq κ] :
    ∀ {m : List (κ × List α)}, (keysG m).Nodup → ∀ (k : κ) (v : α),
      (keysG (addGroup m k v)).Nodup := by
  intro m
  induction m with
  | nil =>
    intro _ k v
    simp [addGroup, keysG]
  | cons kg rest ih =>
    intro h k v
    obtain ⟨k0, vs⟩ := kg
    have hcons : (k0 :: keysG rest).Nodup := by
      simpa only [keysG, List.map_cons] using h
    have h' := List.nodup_cons.mp hcons
    by_cases h0 : k0 = k
    · subst h0
      rw [show addGroup ((k0, vs) :: rest) k0 v = (k0, vs ++ [v]) :: rest from by
        simp [addGroup]]
      simp only [keysG, List.map_cons]
      exact hcons
    · rw [show addGroup ((k0, vs) :: rest) k v = (k0, vs) :: addGroup rest k v from by
        simp [addGroup, h0]]
      have hmem : k0 ∉ keysG (addGroup rest k v) := by
        rw [mem_keysG_addGroup]
        rintro (hc | hc)
        · exact h'.1 hc
        · exact h0 hc
      simp only [keysG, List.map_cons]
      exact List.nodup_cons.mpr ⟨hmem, ih h'.2 k v⟩

theorem nodup_keysG_foldGroups {κ α : Type} [DecidableEq κ] (keyf : α → κ) :
    ∀ (L : List α) (m : List (κ × List α)),
      (keysG m).Nodup → (keysG (foldGroups keyf L m)).Nodup := by
  intro L
  induction L with
  | nil => intro m h; exact h
  | cons f fs ih =>
    intro m h
    exact ih _ (nodup_keysG_addGroup h _ _)

theorem lookupG_of_mem {κ α : Type} [DecidableEq κ] :
    ∀ {m : List (κ × List α)}, (keysG m).Nodup → ∀ {kg}, kg ∈ m →
      lookupG m kg.1 = kg.2 := by
  intro m
  induction m with
  | nil => intro _ kg h; simp at h
  | cons kg0 rest ih =>
    intro hnd kg hmem
    obtain ⟨k0, vs⟩ := kg0
    rcases List.mem_cons.mp hmem with h | h
    · subst h
      simp [lookupG]
    · have hne : k0 ≠ kg.1 := by
        intro hk
        have : kg.1 ∈ keysG rest := List.mem_map_of_mem _ h
        rw [← hk] at this
        exact (List.nodup_cons.mp (by simpa [keysG] using hnd)).1 this
      have hrest : (keysG rest).Nodup :=
        (List.nodup_cons.mp (by simpa [keysG] using hnd)).2
      simp only [lookupG, if_neg hne]
      exact ih hrest h

/-- Every `by_size` group is exactly the scanned files of its key size,
in scan order. -/
theorem by_size_groups {files : List DFile} {kg : Nat × List DFile}
    (h : kg ∈ by_size files) :
    kg.2 = files.filter (fun f => decide (fsize f = kg.1)) := by
  have hnd : (keysG (by_size files)).Nodup :=
    nodup_keysG_foldGroups fsize files [] (by simp [keysG])
  have := lookupG_of_mem hnd h
  rw [← this, by_size, lookupG_foldGroups]
  rfl

/-! ### The duplicates invariant -/

/-- What the size prefilter guarantees for every fingerprinted file: it
was scanned, and at least two scanned files (itself included) share its
exact byte size. -/
def sizeOK (files : List DFile) (f : DFile) : Prop :=
  f ∈ files ∧
  2 ≤ (files.filter fun f' => decide (fsize f' = fsize f)).length

theorem by_size_member_sizeOK {files : List DFile}
    {kg : Nat × List DFile} (hkg : kg ∈ by_size files)
    (hlen : 2 ≤ kg.2.length) {f : DFile} (hf : f ∈ kg.2) :
    sizeOK files f := by
  have hchar := by_size_groups hkg
  have hmem := List.mem_filter.mp (hchar ▸ hf)
  refine ⟨hmem.1, ?_⟩
  have hsz : fsize f = kg.1 := by simpa using hmem.2
  have hpred : (files.filter fun f' => decide (fsize f' = fsize f)) =
      (files.filter fun f' => decide (fsize f' = kg.1)) := by
    apply List.filter_congr
    intro x _
    simp [hsz]
  rw [hpred, ← hchar]
  exact hlen

/-- The invariant carried through the `by_md5` construction: every member
of every group has the group key as its partial fingerprint and passed
the size prefilter. -/
def md5INV {α : Type} [DecidableEq α] (md5 : List Nat → α)
    (files : List DFile) (m : List (α × List DFile)) : Prop :=
  ∀ kg ∈ m, ∀ f ∈ kg.2,
    compute_md5sum md5 f.content true = kg.1 ∧ sizeOK files f

theorem md5INV_addGroup {α : Type} [DecidableEq α] (md5 : List Nat → α)
    (files : List DFile) (v : DFile) :
    ∀ (m : List (α × List DFile)), md5INV md5 files m → sizeOK files v →
      md5INV md5 files
        (addGroup m (compute_md5sum md5 v.content true) v) := by
  intro m
  induction m with
  | nil =>
    intro _ hv kg hkg f hf
    simp only [addGroup, List.mem_singleton] at hkg
    subst hkg
    simp only [List.mem_singleton] at hf
    subst hf
    exact ⟨rfl, hv⟩
  | cons kg0 rest ih =>
    intro hm hv kg hkg f hf
    obtain ⟨k0, vs⟩ := kg0
    by_cases h0 : k0 = compute_md5sum md5 v.content true
    · rw [show addGroup ((k0, vs) :: rest)
            (compute_md5sum md5 v.content true) v = (k0, vs ++ [v]) :: rest
          from by simp [addGroup, h0]] at hkg
      rcases List.mem_cons.mp hkg with hkg | hkg
      · subst hkg
        rcases List.mem_append.mp hf with hfv | hfv
        · exact hm (k0, vs) (List.mem_cons_self _ _) f hfv
        · have hfv' : f = v := by simpa using hfv
          subst hfv'
          exact ⟨h0.symm, hv⟩
      · exact hm kg (List.mem_cons_of_mem _ hkg) f hf
    · rw [show addGroup ((k0, vs) :: rest)
            (compute_md5sum md5 v.content true) v =
            (k0, vs) :: addGroup rest (compute_md5sum md5 v.content true) v
          from by simp [addGroup, h0]] at hkg
      rcases List.mem_cons.mp hkg with hkg | hkg
      · subst hkg
        exact hm (k0, vs) (List.mem_cons_self _ _) f hf
      · exact ih (fun kg' hkg' => hm kg' (List.mem_cons_of_mem _ hkg'))
          hv kg hkg f hf

theorem md5INV_foldGroups {α : Type} [DecidableEq α] (md5 : List Nat → α)
    (files : List DFile) :
    ∀ (L : List DFile) (m : List (α × List DFile)),
      md5INV md5 files m → (∀ f ∈ L, sizeOK files f) →
      md5INV md5 files
        (foldGroups (fun f => compute_md5sum md5 f.content true) L m) := by
  intro L
  induction L with
  | nil => intro m hm _; exact hm
  | cons f fs ih =>
    intro m hm hL
    exact ih _
      (md5INV_addGroup md5 files f m hm (hL f (List.mem_cons_self _ _)))
      (fun g hg => hL g (List.mem_cons_of_mem _ hg))

theorem md5INV_by_md5 {α : Type} [DecidableEq α] (md5 : List Nat → α)
    (files : List DFile) : md5INV md5 files (by_md5 md5 files) := by
  have hgen : ∀ (SL : List (Nat × List DFile)),
      (∀ kg ∈ SL, 2 ≤ kg.2.length → ∀ f ∈ kg.2, sizeOK files f) →
      ∀ m, md5INV md5 files m →
      md5INV md5 files
        (SL.foldl (fun m kg => if kg.2.length < 2 then m
          else foldGroups (fun f => compute_md5sum md5 f.content true)
            kg.2 m) m) := by
    intro SL
    induction SL with
    | nil => intro _ m hm; exact hm
    | cons kg SL ih =>
      intro hSL m hm
      rw [List.foldl_cons]
      by_cases hlen : kg.2.length < 2
      · rw [if_pos hlen]
        exact ih (fun kg' h' => hSL kg' (List.mem_cons_of_mem _ h')) m hm
      · rw [if_neg hlen]
        exact ih (fun kg' h' => hSL kg' (List.mem_cons_of_mem _ h')) _
          (md5INV_foldGroups md5 files kg.2 m hm
            (hSL kg (List.mem_cons_self _ _) (by omega)))
  exact hgen (by_size files)
    (fun kg hkg hlen f hf => by_size_member_sizeOK hkg hlen hf)
    [] (fun kg hkg => by simp at hkg)

/-! ## Claim C1 -/

/-- Claim C1 (amended).  Any two files placed in the same reported
duplicate group have equal MD5 fingerprints of their first 8000 bytes, and
every grouped file shares its exact byte size with at least one other
scanned file (the size prefilter); but because all fingerprints feed one
dictionary, two files in the same group need **not** have the same byte
size (see the counterexample). -/
theorem C1_duplicate_groups_fingerprint :
    ∀ {α : Type} [DecidableEq α] (md5 : List Nat → α) (files : List DFile)
      (g : List DFile) (a b : DFile),
      g ∈ duplicate_groups md5 files → a ∈ g → b ∈ g →
      compute_md5sum md5 a.content true =
        compute_md5sum md5 b.content true ∧
      a ∈ files ∧
      2 ≤ (files.filter fun f => decide (fsize f = fsize a)).length := by
  intro α _ md5 files g a b hg ha hb
  obtain ⟨kg, hkgf, rfl⟩ := List.mem_map.mp hg
  have hkg : kg ∈ by_md5 md5 files := (List.mem_filter.mp hkgf).1
  have hinv := md5INV_by_md5 md5 files
  have hA := hinv kg hkg a ha
  have hB := hinv kg hkg b hb
  exact ⟨hA.1.trans hB.1.symm, hA.2.1, hA.2.2⟩

/-- Two identical one-byte files, used to witness the amended C1. -/
def witFiles : List DFile := [⟨"x.jpg", [7]⟩, ⟨"y.jpg", [7]⟩]

/-- Witness for the amended C1: two identical one-byte files form one
duplicate group (digest function: the length of the data read). -/
theorem C1_duplicate_groups_witness :
    compute_md5sum (fun data => data.length)
        (DFile.mk "x.jpg" [7]).content true =
      compute_md5sum (fun data => data.length)
        (DFile.mk "y.jpg" [7]).content true ∧
    DFile.mk "x.jpg" [7] ∈ witFiles ∧
    2 ≤ (witFiles.filter
      fun f => decide (fsize f = fsize (DFile.mk "x.jpg" [7]))).length :=
  C1_duplicate_groups_fingerprint (fun data => data.length) witFiles
    [⟨"x.jpg", [7]⟩, ⟨"y.jpg", [7]⟩] ⟨"x.jpg", [7]⟩ ⟨"y.jpg", [7]⟩
    (by decide) (by decide) (by decide)

/-- A digest stand-in for the counterexample.  The grouping outcome for
the four files below is the same for *every* digest function: their
first-8000-byte reads are literally equal byte lists, so any function
gives them equal fingerprints. -/
def dupMd5 : List Nat → List Nat := fun data => data

def fileA : DFile := ⟨"a.jpg", List.replicate 8001 0⟩
def fileB : DFile := ⟨"b.jpg", List.replicate 8002 0⟩
def fileC : DFile := ⟨"c.jpg", List.replicate 8001 0⟩
def fileD : DFile := ⟨"d.jpg", List.replicate 8002 0⟩

theorem fsize_fileA : fsize fileA = 8001 := by
  simp only [fsize, fileA, List.length_replicate]

theorem fsize_fileB : fsize fileB = 8002 := by
  simp only [fsize, fileB, List.length_replicate]

theorem fsize_fileC : fsize fileC = 8001 := by
  simp only [fsize, fileC, List.length_replicate]

theorem fsize_fileD : fsize fileD = 8002 := by
  simp only [fsize, fileD, List.length_replicate]

theorem dup_by_size :
    by_size [fileA, fileB, fileC, fileD] =
      [(8001, [fileA, fileC]), (8002, [fileB, fileD])] := by
  unfold by_size foldGroups
  simp only [List.foldl_cons, List.foldl_nil, fsize_fileA, fsize_fileB,
    fsize_fileC, fsize_fileD]
  norm_num [addGroup]

theorem fp_fileA :
    compute_md5sum dupMd5 fileA.content true = List.replicate 8000 0 := by
  show (List.replicate 8001 0).take 8000 = _
  rw [List.take_replicate]
  norm_num

theorem fp_fileB :
    compute_md5sum dupMd5 fileB.content true = List.replicate 8000 0 := by
  show (List.replicate 8002 0).take 8000 = _
  rw [List.take_replicate]
  norm_num

theorem fp_fileC :
    compute_md5sum dupMd5 fileC.content true = List.replicate 8000 0 := by
  show (List.replicate 8001 0).take 8000 = _
  rw [List.take_replicate]
  norm_num

theorem fp_fileD :
    compute_md5sum dupMd5 fileD.content true = List.replicate 8000 0 := by
  show (List.replicate 8002 0).take 8000 = _
  rw [List.take_replicate]
  norm_num

theorem dup_by_md5 :
    by_md5 dupMd5 [fileA, fileB, fileC, fileD] =
      [(List.replicate 8000 0, [fileA, fileC, fileB, fileD])] := by
  unfold by_md5
  rw [dup_by_size]
  rw [List.foldl_cons, List.foldl_cons, List.foldl_nil]
  rw [if_neg (show ¬([fileA, fileC] : List DFile).length < 2 from by norm_num)]
  rw [if_neg (show ¬([fileB, fileD] : List DFile).length < 2 from by norm_num)]
  unfold foldGroups
  rw [List.foldl_cons, List.foldl_cons, List.foldl_nil,
    List.foldl_cons, List.foldl_cons, List.foldl_nil]
  beta_reduce
  rw [fp_fileA, fp_fileC, fp_fileB, fp_fileD]
  rw [show addGroup ([] : List (List Nat × List DFile))
      (List.replicate 8000 0) fileA = [(List.replicate 8000 0, [fileA])]
    from rfl]
  rw [show addGroup [(List.replicate 8000 0, [fileA])]
      (List.replicate 8000 0) fileC =
      [(List.replicate 8000 0, [fileA, fileC])]
    from by simp only [addGroup, if_true, List.cons_append, List.nil_append]]
  rw [show addGroup [(List.replicate 8000 0, [fileA, fileC])]
      (List.replicate 8000 0) fileB =
      [(List.replicate 8000 0, [fileA, fileC, fileB])]
    from by simp only [addGroup, if_true, List.cons_append, List.nil_append]]
  rw [show addGroup [(List.replicate 8000 0, [fileA, fileC, fileB])]
      (List.replicate 8000 0) fileD =
      [(List.replicate 8000 0, [fileA, fileC, fileB, fileD])]
    from by simp only [addGroup, if_true, List.cons_append, List.nil_append]]

/-- Counterexample refuting C1 as stated: `a.jpg` (8001 bytes) and
`b.jpg` (8002 bytes) land in the same reported duplicate group although
their sizes differ — each merely has a same-size companion (`c.jpg`,
`d.jpg`), and all four share the same first 8000 bytes. -/
theorem C1_counterexample :
    duplicate_groups dupMd5 [fileA, fileB, fileC, fileD] =
      [[fileA, fileC, fileB, fileD]] ∧
    fileA ∈ [fileA, fileC, fileB, fileD] ∧
    fileB ∈ [fileA, fileC, fileB, fileD] ∧
    fsize fileA ≠ fsize fileB := by
  refine ⟨?_, by simp, by simp, ?_⟩
  · unfold duplicate_groups
    rw [dup_by_md5]
    norm_num [List.filter]
  · rw [fsize_fileA, fsize_fileB]
    norm_num

/-! ## pwf_protect.py : protect / unprotect

The filesystem is a list of entries (each a directory or a regular file
with its permission mode and byte content).  `path.glob("**/*")`
enumerates the entries strictly below `path`; both callers iterate
`sorted(...)`, so we take the entry list itself to be in sorted traversal
order and the filtered sublist is the walk order.  The sidecar manifest
`<path.name>.md5` lives beside `path` (outside the walked subtree); it is
modelled as the text `protect` appends to it (each file's entry is written
with `open(md5_file, "a")`, so the existing content is never truncated).
`unprotect`'s final `md5_file.lchmod(0o664)` on that sidecar is not
modelled, since no claim depends on the sidecar's own permission bits. -/

structure FsEntry where
  path : List String
  isDir : Bool
  mode : Nat
  content : List Nat
deriving DecidableEq, Repr

/-- Membership in `path.glob("**/*")`: strictly below `root`. -/
def strictlyUnder (root p : List String) : Bool :=
  root.isPrefixOf p && decide (root.length < p.length)

/-- `p.chmod(m)` / `p.lchmod(m)`: set the mode of the entry at a path. -/
def chmodAt (fs : List FsEntry) (target : List String) (m : Nat) :
    List FsEntry :=
  fs.map fun e => if e.path = target then { e with mode := m } else e

/-- `pwf_protect.unprotect`: directories become `0o775`; with
`is_all` (flag `-a`) files become `0o664`; other entries are left. -/
def unprotect (fs : List FsEntry) (root : List String)
    (is_all : Bool) : List FsEntry :=
  (fs.filter (fun e => strictlyUnder root e.path)).foldl
    (fun acc e =>
      if e.isDir then chmodAt acc e.path 0o775
      else if is_all then chmodAt acc e.path 0o664
      else acc)
    fs

/-- One manifest record as `protect` writes it:
`f.write(f"{md5sum} *{p.relative_to(path.parent)}")` — note there is no
newline terminator in the source. -/
def manifest_entry (md5hex : List Nat → String) (root : List String)
    (e : FsEntry) : String :=
  md5hex e.content ++ " *" ++ joinParts (e.path.drop (root.length - 1))

/-- The locking walk of `pwf_protect.protect`: directories to `0o555`,
files to `0o444`, appending one manifest record per file.  Returns the
updated filesystem and the text appended to the sidecar manifest.  The
un-forced variant first runs the checker with `{"prot"}` ignored and only
reaches this walk if no check raises; the walk itself is identical. -/
def protect (md5hex : List Nat → String) (fs : List FsEntry)
    (root : List String) : List FsEntry × String :=
  (fs.filter (fun e => strictlyUnder root e.path)).foldl
    (fun acc e =>
      if e.isDir then (chmodAt acc.1 e.path 0o555, acc.2)
      else (chmodAt acc.1 e.path 0o444, acc.2 ++ manifest_entry md5hex root e))
    (fs, "")

/-! ### Chmod-walk lemmas -/

/-- A chmod walk: apply `chmodAt` for every walked entry whose
`modeFor` is set. -/
def applyChmods (modeFor : FsEntry → Option Nat) (ws fs : List FsEntry) :
    List FsEntry :=
  ws.foldl
    (fun acc w =>
      match modeFor w with
      | some m => chmodAt acc w.path m
      | none => acc)
    fs

def modeForProt (e : FsEntry) : Option Nat :=
  some (if e.isDir then 0o555 else 0o444)

def modeForUnprot (is_all : Bool) (e : FsEntry) : Option Nat :=
  if e.isDir then some 0o775 else if is_all then some 0o664 else none

theorem protect_fst (md5hex : List Nat → String) (fs : List FsEntry)
    (root : List String) :
    (protect md5hex fs root).1 =
      applyChmods modeForProt
        (fs.filter (fun e => strictlyUnder root e.path)) fs := by
  unfold protect applyChmods
  generalize fs.filter (fun e => strictlyUnder root e.path) = ws
  suffices h : ∀ (ws : List FsEntry) (fs0 : List FsEntry) (s : String),
      (ws.foldl (fun acc e =>
        if e.isDir then (chmodAt acc.1 e.path 0o555, acc.2)
        else (chmodAt acc.1 e.path 0o444,
          acc.2 ++ manifest_entry md5hex root e)) (fs0, s)).1 =
      ws.foldl (fun acc w =>
        match modeForProt w with
        | some m => chmodAt acc w.path m
        | none => acc) fs0 from h ws fs ""
  intro ws
  induction ws with
  | nil => intro fs0 s; rfl
  | cons w ws ih =>
    intro fs0 s
    by_cases hd : w.isDir
    · simp only [List.foldl_cons, if_pos hd, modeForProt, hd, if_true]
      exact ih _ _
    · simp only [List.foldl_cons, if_neg hd, modeForProt, hd, if_false]
      exact ih _ _

theorem unprotect_eq (fs : List FsEntry) (root : List String)
    (is_all : Bool) :
    unprotect fs root is_all =
      applyChmods (modeForUnprot is_all)
        (fs.filter (fun e => strictlyUnder root e.path)) fs := by
  unfold unprotect applyChmods
  generalize fs.filter (fun e => strictlyUnder root e.path) = ws
  induction ws generalizing fs with
  | nil => rfl
  | cons w ws ih =>
    simp only [List.foldl_cons]
    have hinit : (if w.isDir = true then chmodAt fs w.path 0o775
        else if is_all = true then chmodAt fs w.path 0o664 else fs) =
        (match modeForUnprot is_all w with
         | some m => chmodAt fs w.path m
         | none => fs) := by
      unfold modeForUnprot
      by_cases hd : w.isDir
      · rw [if_pos hd, if_pos hd]
      · rw [if_neg hd, if_neg hd]
        by_cases ha : is_all
        · rw [if_pos ha, if_pos ha]
        · rw [if_neg ha, if_neg ha]
    rw [hinit]
    exact ih _

/-- The mode an entry ends up with after a chmod walk over `ws`. -/
def chmodResult (modeFor : FsEntry → Option Nat) (ws : List FsEntry)
    (e : FsEntry) : FsEntry :=
  match ws.find? (fun w => w.path == e.path) with
  | some w =>
    match modeFor w with
    | some m => { e with mode := m }
    | none => e
  | none => e

theorem applyChmods_eq_map (modeFor : FsEntry → Option Nat) :
    ∀ (ws fs : List FsEntry),
      (ws.map (fun w => w.path)).Nodup →
      applyChmods modeFor ws fs = fs.map (chmodResult modeFor ws) := by
  intro ws
  induction ws with
  | nil =>
    intro fs _
    show fs = fs.map (chmodResult modeFor [])
    have h1 : fs.map (chmodResult modeFor []) = fs.map (fun e => e) :=
      List.map_congr_left (fun e _ => rfl)
    rw [h1, List.map_id']
  | cons w ws ih =>
    intro fs hnd
    have hnd' : (ws.map (fun w => w.path)).Nodup := (List.nodup_cons.mp hnd).2
    have hwmem : w.path ∉ ws.map (fun w => w.path) :=
      (List.nodup_cons.mp hnd).1
    show applyChmods modeFor ws
        (match modeFor w with
         | some m => chmodAt fs w.path m
         | none => fs) = _
    have hstep : (match modeFor w with
        | some m => chmodAt fs w.path m
        | none => fs) =
        fs.map (fun e => if e.path = w.path then
          (match modeFor w with
           | some m => { e with mode := m }
           | none => e) else e) := by
      cases hmf : modeFor w with
      | some m => rfl
      | none => simp
    rw [hstep, ih _ hnd', List.map_map]
    apply List.map_congr_left
    intro e _
    simp only [Function.comp_apply]
    have hfind_none : ∀ (x : FsEntry), x.path = e.path → e.path = w.path →
        ws.find? (fun v => v.path == x.path) = none := by
      intro x hx he
      apply List.find?_eq_none.mpr
      intro v hv hbeq
      rw [beq_iff_eq] at hbeq
      apply hwmem
      rw [← he, ← hx, ← hbeq]
      exact List.mem_map_of_mem _ hv
    by_cases hpath : e.path = w.path
    · cases hmf : modeFor w with
      | some m =>
        dsimp only
        rw [if_pos hpath]
        have h2 : chmodResult modeFor ws { e with mode := m } =
            { e with mode := m } := by
          unfold chmodResult
          rw [hfind_none { e with mode := m } rfl hpath]
        have h1 : chmodResult modeFor (w :: ws) e = { e with mode := m } := by
          unfold chmodResult
          rw [List.find?_cons_of_pos _ (by simp [hpath])]
          dsimp only
          rw [hmf]
        rw [h2, h1]
      | none =>
        dsimp only
        rw [ite_self]
        have h1 : chmodResult modeFor (w :: ws) e = e := by
          unfold chmodResult
          rw [List.find?_cons_of_pos _ (by simp [hpath])]
          dsimp only
          rw [hmf]
        have h2 : chmodResult modeFor ws e = e := by
          unfold chmodResult
          rw [hfind_none e rfl hpath]
        rw [h2, h1]
    · rw [if_neg hpath]
      have h1 : chmodResult modeFor (w :: ws) e = chmodResult modeFor ws e := by
        unfold chmodResult
        rw [List.find?_cons_of_neg _ (by
          simp only [beq_iff_eq]
          exact fun h => hpath h.symm)]
      rw [h1]

/-- With unique paths, the walk finds exactly the entry itself. -/
theorem find?_filter_path {fs : List FsEntry}
    (hnd : (fs.map (fun e => e.path)).Nodup) (pred : FsEntry → Bool)
    {e : FsEntry} (he : e ∈ fs) :
    (fs.filter pred).find? (fun w => w.path == e.path) =
      if pred e then some e else none := by
  by_cases hp : pred e
  · rw [if_pos hp]
    cases hfind : (fs.filter pred).find? (fun w => w.path == e.path) with
    | none =>
      exfalso
      have := List.find?_eq_none.mp hfind e (List.mem_filter.mpr ⟨he, hp⟩)
      simp at this
    | some w =>
      have hw := List.find?_some hfind
      rw [beq_iff_eq] at hw
      have hwmem : w ∈ fs :=
        (List.mem_filter.mp (List.mem_of_find?_eq_some hfind)).1
      have : w = e := List.inj_on_of_nodup_map hnd hwmem he hw
      rw [this]
  · rw [if_neg hp]
    apply List.find?_eq_none.mpr
    intro x hx hbeq
    rw [beq_iff_eq] at hbeq
    have hxfs := (List.mem_filter.mp hx).1
    have hxpred := (List.mem_filter.mp hx).2
    have : x = e := List.inj_on_of_nodup_map hnd hxfs he hbeq
    rw [this] at hxpred
    exact hp hxpred

/-! ## Claim C5 -/

/-- Claim C5 (amended).  After `protect(path, forced=True)`, every
directory **strictly below** `path` has mode `0o555` and every file
strictly below `path` has mode `0o444`; but `path.glob("**/*")` never
yields `path` itself, so the root directory's own mode is left untouched
(the original claim fails when `path`'s mode is not already `0o555`, see
the counterexample).  The `unprotect(includeFiles=True)` /
`protect(forced=True)` round trip restores `0o555`/`0o444` for everything
strictly below `path`, again leaving the root's mode alone. -/
theorem C5_protect_modes :
    ∀ (md5hex : List Nat → String) (fs : List FsEntry) (root : List String),
      (fs.map (fun e => e.path)).Nodup →
      ((protect md5hex fs root).1 = fs.map (fun e =>
        if strictlyUnder root e.path then
          { e with mode := if e.isDir then 0o555 else 0o444 }
        else e)) ∧
      ((protect md5hex (unprotect fs root true) root).1 = fs.map (fun e =>
        if strictlyUnder root e.path then
          { e with mode := if e.isDir then 0o555 else 0o444 }
        else e)) := by
  have hprot : ∀ (md5hex : List Nat → String) (fs : List FsEntry)
      (root : List String), (fs.map (fun e => e.path)).Nodup →
      (protect md5hex fs root).1 = fs.map (fun e =>
        if strictlyUnder root e.path then
          { e with mode := if e.isDir then 0o555 else 0o444 }
        else e) := by
    intro md5hex fs root hnd
    have hndf : ((fs.filter (fun e => strictlyUnder root e.path)).map
        (fun e => e.path)).Nodup :=
      List.Nodup.sublist ((List.filter_sublist fs).map _) hnd
    rw [protect_fst, applyChmods_eq_map _ _ _ hndf]
    apply List.map_congr_left
    intro e he
    unfold chmodResult
    rw [find?_filter_path hnd _ he]
    by_cases hp : strictlyUnder root e.path
    · rw [if_pos hp, if_pos hp]
      rfl
    · rw [if_neg hp, if_neg hp]
  intro md5hex fs root hnd
  refine ⟨hprot md5hex fs root hnd, ?_⟩
  have hndf : ((fs.filter (fun e => strictlyUnder root e.path)).map
      (fun e => e.path)).Nodup :=
    List.Nodup.sublist ((List.filter_sublist fs).map _) hnd
  have hu : unprotect fs root true = fs.map (fun e =>
      if strictlyUnder root e.path then
        { e with mode := if e.isDir then 0o775 else 0o664 }
      else e) := by
    rw [unprotect_eq, applyChmods_eq_map _ _ _ hndf]
    apply List.map_congr_left
    intro e he
    unfold chmodResult
    rw [find?_filter_path hnd _ he]
    by_cases hp : strictlyUnder root e.path
    · rw [if_pos hp, if_pos hp]
      by_cases hd : e.isDir
      · simp [modeForUnprot, hd]
      · simp [modeForUnprot, hd]
    · rw [if_neg hp, if_neg hp]
  have hpaths : ((unprotect fs root true).map (fun e => e.path)).Nodup := by
    rw [hu, List.map_map]
    have hsame : fs.map ((fun e => e.path) ∘ (fun e =>
        if strictlyUnder root e.path then
          { e with mode := if e.isDir then 0o775 else 0o664 }
        else e)) = fs.map (fun e => e.path) :=
      List.map_congr_left (fun e _ => by
        by_cases hp : strictlyUnder root e.path <;> simp [hp])
    rw [hsame]
    exact hnd
  rw [hprot md5hex (unprotect fs root true) root hpaths, hu, List.map_map]
  apply List.map_congr_left
  intro e he
  simp only [Function.comp_apply]
  by_cases hp : strictlyUnder root e.path <;>
    by_cases hd : e.isDir <;> simp [hp, hd]

def exRoot : List String := ["2024"]

def exDir : FsEntry := ⟨["2024"], true, 0o775, []⟩

def exSub : FsEntry := ⟨["2024", "d"], true, 0o775, []⟩

def exFile : FsEntry := ⟨["2024", "d", "a.jpg"], false, 0o664, [1, 2, 3]⟩

/-- A 32-hex-character digest stand-in (the value of the digest plays no
role in the mode and line-structure claims). -/
def exHex : List Nat → String := fun _ => "d41d8cd98f00b204e9800998ecf8427e"

/-- Witness for the amended C5 on a three-entry tree `2024/`, `2024/d/`,
`2024/d/a.jpg`. -/
theorem C5_protect_modes_witness :
    ((protect exHex [exDir, exSub, exFile] exRoot).1 =
      [exDir, exSub, exFile].map (fun e =>
        if strictlyUnder exRoot e.path then
          { e with mode := if e.isDir then 0o555 else 0o444 }
        else e)) ∧
    ((protect exHex (unprotect [exDir, exSub, exFile] exRoot true)
        exRoot).1 =
      [exDir, exSub, exFile].map (fun e =>
        if strictlyUnder exRoot e.path then
          { e with mode := if e.isDir then 0o555 else 0o444 }
        else e)) :=
  C5_protect_modes exHex [exDir, exSub, exFile] exRoot (by decide)

/-- Counterexample refuting C5 as stated: the root directory `2024` has
mode `0o775` before `protect(forced=True)` and still has it afterwards —
the walk never chmods `path` itself, so not every directory in the
subtree ends at `0o555`. -/
theorem C5_counterexample :
    exDir ∈ (protect exHex [exDir, exSub, exFile] exRoot).1 ∧
    exDir.isDir = true ∧
    exDir.mode = 0o775 ∧
    (0o775 : Nat) ≠ 0o555 :=
  ⟨by decide, rfl, rfl, by decide⟩

/-! ## Claim C6 -/

def exA6 : FsEntry := ⟨["2024", "a.jpg"], false, 0o664, [1]⟩

def exB6 : FsEntry := ⟨["2024", "b.jpg"], false, 0o664, [2]⟩

/-- Claim C6 (code bug).  `protect` appends one manifest *record* per
locked file, of the form `<md5hex> *<path relative to path.parent>`, and
the manifest is opened with mode `"a"` (append, never truncated) — but
the `f.write(f"{md5sum} *{p.relative_to(path.parent)}")` call writes **no
newline terminator**, so locking two files produces a single line
`h *2024/a.jpgh *2024/b.jpg` instead of two lines.  The claim matches the
code's own intent: `_read_md5sums_file` parses the manifest with
`readlines()` one entry per line, and `test_normal` protects three files
and then expects the checksum check to pass, which requires one line per
file.  Below, protecting two files appends text containing zero newline
characters. -/
theorem C6_manifest_single_line :
    (protect exHex [exDir, exA6, exB6] exRoot).2 =
      "d41d8cd98f00b204e9800998ecf8427e *2024/a.jpg" ++
        "d41d8cd98f00b204e9800998ecf8427e *2024/b.jpg" ∧
    ([exDir, exA6, exB6].filter
      (fun e => strictlyUnder exRoot e.path && !e.isDir)).length = 2 ∧
    ((protect exHex [exDir, exA6, exB6] exRoot).2.data.filter
      (fun c => c == '\n')).length = 0 :=
  ⟨by decide, by decide, by decide⟩

end Pwf
